import Mathlib

/-!
Verification development for the lead-generation backend.

The definitions below are a shallow embedding of the prospect
deduplication and suppression pipeline of the service (file index.js,
schema file db.js).  JavaScript strings are modelled as lists of
natural-number code points, JavaScript values reaching the normalizers
as a small sum type, and the SQLite table as a list of rows.  Each
route handler relevant to a verified property is translated into an
explicit state-passing function.
-/

/-- A JavaScript string, modelled as its list of code points. -/
abbrev JsStr := List Nat

/-- Code points of a Lean string literal, used to write concrete inputs. -/
def strToCodes (s : String) : JsStr := s.data.map Char.toNat

/-- Whitespace recognised by the JavaScript trim operation and by the
regular-expression class backslash-s: space, tab, line feed, vertical tab,
form feed, carriage return, no-break space, and the Unicode space
separators and byte-order mark. -/
def jsIsWs (c : Nat) : Bool :=
  decide (c = 32 ∨ c = 9 ∨ c = 10 ∨ c = 11 ∨ c = 12 ∨ c = 13 ∨
    c = 0xa0 ∨ c = 0x1680 ∨ (0x2000 ≤ c ∧ c ≤ 0x200a) ∨
    c = 0x2028 ∨ c = 0x2029 ∨ c = 0x202f ∨ c = 0x205f ∨
    c = 0x3000 ∨ c = 0xfeff)

/-- ASCII lowering of one code point, the effect of toLowerCase on the
inputs handled by this service. -/
def jsLowerChar (c : Nat) : Nat :=
  if 65 ≤ c ∧ c ≤ 90 then c + 32 else c

/-- Whether the first code point of a string is whitespace. -/
def headIsWs : JsStr → Bool
  | [] => false
  | c :: _ => jsIsWs c

/-- Whether the last code point of a string is whitespace. -/
def lastIsWs (s : JsStr) : Bool := headIsWs s.reverse

/-- JavaScript trim: drop whitespace from both ends. -/
def jsTrim (s : JsStr) : JsStr :=
  ((s.dropWhile jsIsWs).reverse.dropWhile jsIsWs).reverse

/-- JavaScript toLowerCase, applied point-wise. -/
def jsToLower (s : JsStr) : JsStr := s.map jsLowerChar

/-- Effect of replace(/backslash-s+/g, one space): every maximal run of
whitespace becomes a single space.  The single space is emitted at the
last position of the run, which yields the same list as replacing the
run at its first position. -/
def collapseWs : JsStr → JsStr
  | [] => []
  | c :: rest =>
    if jsIsWs c then
      if headIsWs rest then collapseWs rest else 32 :: collapseWs rest
    else c :: collapseWs rest

/-- A JavaScript value as seen by the normalizers and route handlers:
a string, a falsy non-string (null, undefined, false, zero, NaN), or a
truthy non-string (number, object, array). -/
inductive JsVal where
  | vstr (s : JsStr)
  | vnull
  | vother
deriving DecidableEq

/-- JavaScript truthiness of a modelled value. -/
def jsTruthy : JsVal → Bool
  | .vstr s => s ≠ []
  | .vnull => false
  | .vother => true

/-- The idiom value-or-null: keep a truthy value, otherwise null. -/
def jsOrNull (v : JsVal) : JsVal := if jsTruthy v then v else .vnull

/-- Lift an optional string back to a JavaScript value (null for none),
used to feed the result of a normalizer into a second application. -/
def optToVal : Option JsStr → JsVal
  | some s => .vstr s
  | none => .vnull

/-- Source function normalizeEmail: null for falsy or non-string input,
otherwise trim, lowercase, and null if the result is empty. -/
def normalizeEmail : JsVal → Option JsStr
  | .vstr s =>
    let trimmed := jsToLower (jsTrim s)
    if trimmed = [] then none else some trimmed
  | _ => none

/-- Source function normalizeName: null for falsy or non-string input,
otherwise trim, lowercase, collapse internal whitespace runs to single
spaces, and null if the result is empty. -/
def normalizeName : JsVal → Option JsStr
  | .vstr s =>
    let trimmed := collapseWs (jsToLower (jsTrim s))
    if trimmed = [] then none else some trimmed
  | _ => none

/-- Whether a string starts with the given prefix of code points. -/
def startsWithCodes (p s : JsStr) : Bool := s.take p.length = p

/-- Strip one leading case-insensitive www. from a host name, the
effect of replace with the anchored regular expression. -/
def stripLeadingWww (h : JsStr) : JsStr :=
  match h with
  | w1 :: w2 :: w3 :: dot :: rest =>
    if jsLowerChar w1 = 119 ∧ jsLowerChar w2 = 119 ∧ jsLowerChar w3 = 119 ∧ dot = 46 then
      rest
    else h
  | _ => h

/-- Host part of a URL remainder: the code points before the first
slash, colon, question mark or hash. -/
def urlHostPart (s : JsStr) : JsStr :=
  s.takeWhile (fun c => ¬ (c = 47 ∨ c = 58 ∨ c = 63 ∨ c = 35))

/-- Modelled WHATWG URL parsing, restricted to what the service builds:
the hostname of an http or https URL, ASCII-lowercased by the parser;
none models a thrown parse error (no scheme or empty host). -/
def urlHostname (u : JsStr) : Option JsStr :=
  if startsWithCodes (strToCodes "https://") u then
    let h := urlHostPart (u.drop 8)
    if h = [] then none else some (jsToLower h)
  else if startsWithCodes (strToCodes "http://") u then
    let h := urlHostPart (u.drop 7)
    if h = [] then none else some (jsToLower h)
  else none

/-- Fallback of the domain extractor: the part of the email after the
first at-sign and before any second one, trimmed; null unless the email
is a string containing an at-sign with a non-empty domain part. -/
def emailDomainFallback : JsVal → Option JsStr
  | .vstr e =>
    if 64 ∈ e then
      let afterAt := (e.dropWhile (fun c => c ≠ 64)).tail
      let domainPart := jsTrim (afterAt.takeWhile (fun c => c ≠ 64))
      if domainPart = [] then none
      else some (jsToLower (stripLeadingWww domainPart))
    else none
  | _ => none

/-- Source function extractDomainFromWebsiteOrEmail: prefer the website
(prepending https:// when the value does not start with http), take the
URL hostname, strip a leading www., and lowercase; on failure or empty
host fall back to the domain part of the email. -/
def extractDomainFromWebsiteOrEmail (website email : JsVal) : Option JsStr :=
  match website with
  | .vstr ws =>
    let value := jsTrim ws
    if value ≠ [] then
      let url :=
        if startsWithCodes (strToCodes "http") value then value
        else strToCodes "https://" ++ value
      match urlHostname url with
      | some h =>
        let host := stripLeadingWww h
        if host ≠ [] then some (jsToLower host) else emailDomainFallback email
      | none => emailDomainFallback email
    else emailDomainFallback email
  | _ => emailDomainFallback email

/-- A stored prospect row: the columns of the prospects table that the
verified routes read or write.  Display columns keep the JavaScript
value that the handler stored; nullable timestamp columns are optional
strings. -/
structure ProspectRow where
  id : String
  sourceId : JsVal := .vnull
  companyName : JsVal := .vnull
  contactName : JsVal := .vnull
  role : JsVal := .vnull
  email : JsVal := .vnull
  phone : JsVal := .vnull
  website : JsVal := .vnull
  tags : JsVal := .vnull
  status : JsVal := .vstr (strToCodes "uncontacted")
  ownerName : JsVal := .vnull
  normalizedEmail : Option JsStr := none
  normalizedDomain : Option JsStr := none
  normalizedContactName : Option JsStr := none
  origin : JsStr := strToCodes "manual"
  suppressedAt : Option String := none
  archivedAt : Option String := none
  createdAt : Option String := none
  updatedAt : Option String := none
  lastContactedAt : Option String := none
deriving DecidableEq

/-- A row of the prospect_notes table (columns used by the delete
cascade). -/
structure NoteRow where
  id : String
  prospectId : String
  note : JsStr := []
deriving DecidableEq

/-- The slice of database state the verified routes touch. -/
structure DbState where
  prospects : List ProspectRow
  notes : List NoteRow
deriving DecidableEq

/-- Source function checkDuplicateProspect: if a normalized email is
present, look it up first; when that query returns no row, and also
when no email is present, look up the (domain, contact name) pair when
both parts are present.  The returned row is the first match in table
order, mirroring the SELECT with LIMIT 1. -/
def checkDuplicateProspect (normalizedEmail normalizedDomain normalizedContactName : Option JsStr)
    (table : List ProspectRow) : Option ProspectRow :=
  match normalizedEmail with
  | some e =>
    match table.find? (fun r => r.normalizedEmail == some e) with
    | some row => some row
    | none =>
      match normalizedDomain, normalizedContactName with
      | some d, some n =>
        table.find? (fun r => r.normalizedDomain == some d && r.normalizedContactName == some n)
      | _, _ => none
  | none =>
    match normalizedDomain, normalizedContactName with
    | some d, some n =>
      table.find? (fun r => r.normalizedDomain == some d && r.normalizedContactName == some n)
    | _, _ => none

/-- A raw candidate record as destructured by the create and bulk
handlers; absent properties are undefined, modelled as vnull.  The
bulk handler ignores the sourceId property of a raw row and uses the
route parameter instead, as the source does. -/
structure ProspectInput where
  sourceId : JsVal := .vnull
  companyName : JsVal := .vnull
  contactName : JsVal := .vnull
  role : JsVal := .vnull
  email : JsVal := .vnull
  phone : JsVal := .vnull
  website : JsVal := .vnull
  tags : JsVal := .vnull
  status : JsVal := .vnull
  ownerName : JsVal := .vnull
  origin : JsVal := .vnull
deriving DecidableEq

/-- Origin column value: the trimmed caller-supplied string when it is
a non-empty string, otherwise the given default. -/
def originOrDefault (origin : JsVal) (dflt : String) : JsStr :=
  match origin with
  | .vstr s => if jsTrim s = [] then strToCodes dflt else jsTrim s
  | _ => strToCodes dflt

/-- Outcome of the single-create route POST /prospects. -/
inductive CreateOutcome where
  | conflict (existingId : String)
  | created (row : ProspectRow)
deriving DecidableEq

/-- HTTP status of a single-create outcome: 409 for a duplicate
conflict, 201 for a created row. -/
def createStatus : CreateOutcome → Nat
  | .conflict _ => 409
  | .created _ => 201

/-- Source route POST /prospects: normalize the identity key material,
run checkDuplicateProspect, answer 409 with the identifier of the
existing row when a match is found, otherwise insert one new row with
origin defaulting to manual and null lifecycle timestamps.  The tags
column stores the value-or-null coercion; the array join branch is not
modelled because arrays fall under vother and no verified claim
involves array tags.  The status column stores the value-or-default
without trimming, as the source does on this path. -/
def createProspect (body : ProspectInput) (table : List ProspectRow)
    (newId now : String) : CreateOutcome × List ProspectRow :=
  let normalizedEmail := normalizeEmail body.email
  let normalizedDomain := extractDomainFromWebsiteOrEmail body.website body.email
  let normalizedContactName := normalizeName body.contactName
  match checkDuplicateProspect normalizedEmail normalizedDomain normalizedContactName table with
  | some existing => (.conflict existing.id, table)
  | none =>
    let row : ProspectRow :=
      { id := newId
        sourceId := jsOrNull body.sourceId
        companyName := jsOrNull body.companyName
        contactName := jsOrNull body.contactName
        role := jsOrNull body.role
        email := jsOrNull body.email
        phone := jsOrNull body.phone
        website := jsOrNull body.website
        tags := jsOrNull body.tags
        status := if jsTruthy body.status then body.status else .vstr (strToCodes "uncontacted")
        ownerName := jsOrNull body.ownerName
        normalizedEmail := normalizedEmail
        normalizedDomain := normalizedDomain
        normalizedContactName := normalizedContactName
        origin := originOrDefault body.origin "manual"
        suppressedAt := none
        archivedAt := none
        createdAt := some now
        updatedAt := none
        lastContactedAt := none }
    (.created row, table ++ [row])

/-- Bulk snapshot key for a normalized email, the string email:value. -/
def emailKeyOf (e : JsStr) : JsStr := strToCodes "email:" ++ e

/-- Bulk snapshot key for a (domain, name) pair, the string
dn:domain:name with literal colon separators. -/
def dnKeyOf (d n : JsStr) : JsStr := strToCodes "dn:" ++ d ++ [58] ++ n

/-- Keys of the existing-prospect snapshot loaded by the bulk route:
one email key per row with a normalized email, one domain-name key per
row with both pair parts.  The handler only ever tests membership, so
the map values (row identifiers) are not carried. -/
def buildExistingKeys : List ProspectRow → List JsStr
  | [] => []
  | row :: rest =>
    (match row.normalizedEmail with
     | some e => [emailKeyOf e]
     | none => []) ++
    (match row.normalizedDomain, row.normalizedContactName with
     | some d, some n => [dnKeyOf d n]
     | _, _ => []) ++
    buildExistingKeys rest

/-- Keys of the parallel suppressed set: the same keys, restricted to
rows whose suppressedAt is non-null. -/
def buildSuppressedKeys : List ProspectRow → List JsStr
  | [] => []
  | row :: rest =>
    (if row.suppressedAt.isSome then
      (match row.normalizedEmail with
       | some e => [emailKeyOf e]
       | none => []) ++
      (match row.normalizedDomain, row.normalizedContactName with
       | some d, some n => [dnKeyOf d n]
       | _, _ => [])
     else []) ++
    buildSuppressedKeys rest

/-- Truthiness plus non-blank stringification, the per-field test of
the bulk hasIdentifier check.  Truthy non-strings stringify to
non-empty text, so they pass. -/
def hasUsableIdent : JsVal → Bool
  | .vstr s => s ≠ [] && jsTrim s ≠ []
  | .vnull => false
  | .vother => true

/-- The bulk hasIdentifier check: at least one of company name, contact
name and email is usable. -/
def bulkHasIdentifier (raw : ProspectInput) : Bool :=
  hasUsableIdent raw.companyName || hasUsableIdent raw.contactName || hasUsableIdent raw.email

/-- The bulk keyEmail value for a raw row: the email key when the
normalized email is present. -/
def bulkKeyEmail (raw : ProspectInput) : Option JsStr :=
  (normalizeEmail raw.email).map emailKeyOf

/-- The bulk keyDomain value for a raw row: the domain-name key when
both the normalized domain and the normalized contact name are
present. -/
def bulkKeyDomain (raw : ProspectInput) : Option JsStr :=
  match extractDomainFromWebsiteOrEmail raw.website raw.email, normalizeName raw.contactName with
  | some d, some n => some (dnKeyOf d n)
  | _, _ => none

/-- The bulk duplicateKey condition, in source order: either key is in
the existing-snapshot keys, or either key is in the in-batch seen
set. -/
def bulkDuplicateKey (existingKeys seen : List JsStr) (raw : ProspectInput) : Bool :=
  (bulkKeyEmail raw).any (existingKeys.contains ·) ||
  (bulkKeyDomain raw).any (existingKeys.contains ·) ||
  (bulkKeyEmail raw).any (seen.contains ·) ||
  (bulkKeyDomain raw).any (seen.contains ·)

/-- The bulk suppressedHit condition: either key is in the suppressed
key set of the snapshot. -/
def bulkSuppressedHit (suppressedKeys : List JsStr) (raw : ProspectInput) : Bool :=
  (bulkKeyEmail raw).any (suppressedKeys.contains ·) ||
  (bulkKeyDomain raw).any (suppressedKeys.contains ·)

/-- The row queued for insertion when a bulk candidate is admitted.
Null-coalescing to null is the identity in this value model; the tags
column keeps a string and is null otherwise (the array join branch is
not modelled, as for single create); status is trimmed with an
uncontacted default; origin defaults to purchased. -/
def bulkAdmitRow (srcId : JsStr) (newId now : String) (raw : ProspectInput) : ProspectRow :=
  { id := newId
    sourceId := jsOrNull (.vstr srcId)
    companyName := raw.companyName
    contactName := raw.contactName
    role := raw.role
    email := raw.email
    phone := raw.phone
    website := raw.website
    tags := match raw.tags with
      | .vstr s => .vstr s
      | _ => .vnull
    status := match raw.status with
      | .vstr s => if jsTrim s ≠ [] then .vstr (jsTrim s) else .vstr (strToCodes "uncontacted")
      | _ => .vstr (strToCodes "uncontacted")
    ownerName := raw.ownerName
    normalizedEmail := normalizeEmail raw.email
    normalizedDomain := extractDomainFromWebsiteOrEmail raw.website raw.email
    normalizedContactName := normalizeName raw.contactName
    origin := originOrDefault raw.origin "purchased"
    suppressedAt := none
    archivedAt := none
    createdAt := some now
    updatedAt := none
    lastContactedAt := none }

/-- The bulk per-row filter loop, in input order: skip non-objects,
rows without a usable identifier, and rows hitting the duplicateKey or
suppressedHit condition; otherwise record both present keys in the
seen set and queue the admitted row.  Row identifiers are drawn from
the generator in admission order. -/
def bulkLoop (existingKeys suppressedKeys : List JsStr) (srcId : JsStr)
    (idGen : Nat → String) (now : String) :
    List (Option ProspectInput) → List JsStr → List ProspectRow → List ProspectRow
  | [], _, acc => acc
  | none :: rest, seen, acc => bulkLoop existingKeys suppressedKeys srcId idGen now rest seen acc
  | some raw :: rest, seen, acc =>
    if bulkHasIdentifier raw = false then
      bulkLoop existingKeys suppressedKeys srcId idGen now rest seen acc
    else if bulkDuplicateKey existingKeys seen raw || bulkSuppressedHit suppressedKeys raw then
      bulkLoop existingKeys suppressedKeys srcId idGen now rest seen acc
    else
      bulkLoop existingKeys suppressedKeys srcId idGen now rest
        (seen ++ (bulkKeyEmail raw).toList ++ (bulkKeyDomain raw).toList)
        (acc ++ [bulkAdmitRow srcId (idGen acc.length) now raw])

/-- The validProspects list a bulk request admits against a table. -/
def bulkValidProspects (table : List ProspectRow) (srcId : JsStr)
    (idGen : Nat → String) (now : String)
    (items : List (Option ProspectInput)) : List ProspectRow :=
  bulkLoop (buildExistingKeys table) (buildSuppressedKeys table) srcId idGen now items [] []

/-- Outcome of the bulk route POST /sources/:sourceId/prospects/bulk. -/
inductive BulkResult where
  | badRequestMissingArray
  | badRequestNoValid
  | createdRows (rows : List ProspectRow)
deriving DecidableEq

/-- HTTP status of a bulk outcome: 400 for both bad-request errors,
201 when rows were inserted. -/
def bulkStatus : BulkResult → Nat
  | .badRequestMissingArray => 400
  | .badRequestNoValid => 400
  | .createdRows _ => 201

/-- Response headers of the bulk route: the handler answers through
res.status and res.json only and sets no header on any path. -/
def bulkResponseHeaders (_r : BulkResult) : List (String × String) := []

/-- Source route POST /sources/:sourceId/prospects/bulk: reject a
missing or empty prospects array, load the snapshot keys, filter the
rows, reject when nothing was admitted, otherwise insert every
admitted row in one batch and return them (the handler re-selects the
inserted rows by identifier, which yields the queued rows). -/
def bulkImport (table : List ProspectRow) (srcId : JsStr) (idGen : Nat → String)
    (now : String) (body : Option (List (Option ProspectInput))) :
    BulkResult × List ProspectRow :=
  match body with
  | none => (.badRequestMissingArray, table)
  | some items =>
    if items.length = 0 then (.badRequestMissingArray, table)
    else
      let validProspects := bulkValidProspects table srcId idGen now items
      if validProspects.length = 0 then (.badRequestNoValid, table)
      else (.createdRows validProspects, table ++ validProspects)

/-- The out-of-band header names the specification requires on every
bulk response (the names the repository README documents). -/
def importCountHeaderNames : List String :=
  ["X-LeadGen-Import-Received",
   "X-LeadGen-Import-Valid",
   "X-LeadGen-Import-Inserted",
   "X-LeadGen-Import-Skipped-Invalid",
   "X-LeadGen-Import-Skipped-Duplicate-Email",
   "X-LeadGen-Import-Skipped-Duplicate-Fallback",
   "X-LeadGen-Import-Skipped-Suppressed",
   "X-LeadGen-Import-Skipped-Other"]

/-- A header list reports the import counts when every required count
header name appears in it with some value. -/
def reportsImportCounts (hs : List (String × String)) : Prop :=
  ∀ nm ∈ importCountHeaderNames, ∃ v, (nm, v) ∈ hs

/-- Query parameters of GET /prospects; an absent parameter is none. -/
structure ListQuery where
  status : Option JsStr := none
  sourceId : Option JsStr := none
  ownerName : Option JsStr := none
  search : Option JsStr := none
  archived : Option JsStr := none
  suppressed : Option JsStr := none

/-- The archived flag of a list query: exactly the string 1. -/
def includeArchived (q : ListQuery) : Bool := q.archived == some (strToCodes "1")

/-- The suppressed flag of a list query: exactly the string 1. -/
def includeSuppressed (q : ListQuery) : Bool := q.suppressed == some (strToCodes "1")

/-- ASCII-case-insensitive containment, the effect of the SQLite LIKE
with percent signs on both sides of the trimmed search text (wildcard
characters inside the search text are not modelled; no verified claim
uses them). -/
def sqlLikeContains (needle hay : JsStr) : Bool :=
  decide (List.IsInfix (jsToLower needle) (jsToLower hay))

/-- LIKE applied to a stored column: a null column never matches, a
string column matches by containment (non-string stored values are
outside the modelled comparisons). -/
def colLike (col : JsVal) (needle : JsStr) : Bool :=
  match col with
  | .vstr s => sqlLikeContains needle s
  | _ => false

/-- Equality of a stored column with a query string under the SQL
equals operator: a null column never matches. -/
def colEq (col : JsVal) (v : JsStr) : Bool := col == JsVal.vstr v

/-- The WHERE clause the GET /prospects handler assembles: the archived
and suppressed dimensions are always constrained (IS NOT NULL under
their flag, IS NULL otherwise), and each present non-blank parameter
adds its own conjunct. -/
def prospectMatchesQuery (q : ListQuery) (r : ProspectRow) : Bool :=
  (if includeArchived q then r.archivedAt.isSome else r.archivedAt.isNone) &&
  (if includeSuppressed q then r.suppressedAt.isSome else r.suppressedAt.isNone) &&
  (match q.status with
   | some s => if s ≠ [] && jsTrim s ≠ [] then colEq r.status (jsTrim s) else true
   | none => true) &&
  (match q.sourceId with
   | some s => if s ≠ [] && jsTrim s ≠ [] then colEq r.sourceId (jsTrim s) else true
   | none => true) &&
  (match q.ownerName with
   | some s => if s ≠ [] && jsTrim s ≠ [] then colEq r.ownerName (jsTrim s) else true
   | none => true) &&
  (match q.search with
   | some s => if s ≠ [] && jsTrim s ≠ [] then
       colLike r.companyName (jsTrim s) || colLike r.contactName (jsTrim s) ||
       colLike r.email (jsTrim s)
     else true
   | none => true)

/-- Source route GET /prospects: the rows of the table passing the
assembled WHERE clause.  The ORDER BY createdAt DESC of the source
only permutes the result and is not modelled; the verified claim is
about membership. -/
def listProspects (q : ListQuery) (table : List ProspectRow) : List ProspectRow :=
  table.filter (prospectMatchesQuery q)

/-- Source helper getProspectById: first row with the identifier. -/
def getProspectById (table : List ProspectRow) (id : String) : Option ProspectRow :=
  table.find? (fun r => r.id == id)

/-- Source route PATCH /prospects/:id/archive: set archivedAt to the
current time on the addressed row; none models the 404 when no row
changed. -/
def archiveProspect (st : DbState) (id : String) (now : String) : Option DbState :=
  if st.prospects.any (fun r => r.id == id) then
    some { st with
      prospects := st.prospects.map (fun r =>
        if r.id == id then { r with archivedAt := some now } else r) }
  else none

/-- Outcome of DELETE /prospects/:id. -/
inductive DeleteResult where
  | notFound
  | notArchived
  | deleted (deletedId : String)
deriving DecidableEq

/-- HTTP status of a delete outcome: 404 unknown id, 400 when the row
is not archived, 200 on success. -/
def deleteStatus : DeleteResult → Nat
  | .notFound => 404
  | .notArchived => 400
  | .deleted _ => 200

/-- Source route DELETE /prospects/:id: 404 when the identifier is
unknown, 400 when the found row has a null archivedAt, otherwise hard
removal of the prospect row; the prospect_notes rows owned by it go
with it through the ON DELETE CASCADE foreign key of the schema in
db.js. -/
def deleteProspect (st : DbState) (id : String) : DeleteResult × DbState :=
  match getProspectById st.prospects id with
  | none => (.notFound, st)
  | some p =>
    if p.archivedAt.isNone then (.notArchived, st)
    else
      (.deleted id,
        { prospects := st.prospects.filter (fun r => !(r.id == id))
          notes := st.notes.filter (fun nr => !(nr.prospectId == id)) })

/-- A string is collapsed when every whitespace code point in it is a
plain space that is not followed by further whitespace. -/
def isCollapsed : JsStr → Bool
  | [] => true
  | c :: rest => (!jsIsWs c || (c == 32 && !headIsWs rest)) && isCollapsed rest

/-- The candidate identity key material matches an existing row: its
normalized email equals the normalized email of some row, or its full
(domain, contact name) pair equals the pair of some row. -/
def identityMatches (normalizedEmail normalizedDomain normalizedContactName : Option JsStr)
    (table : List ProspectRow) : Prop :=
  (∃ e, normalizedEmail = some e ∧ ∃ r ∈ table, r.normalizedEmail = some e) ∨
  (∃ d n, normalizedDomain = some d ∧ normalizedContactName = some n ∧
    ∃ r ∈ table, r.normalizedDomain = some d ∧ r.normalizedContactName = some n)

/-- Two rows with distinct identity keys: no shared normalized email
and no shared (domain, contact name) pair. -/
def distinctIdentity (p q : ProspectRow) : Prop :=
  (∀ e, p.normalizedEmail = some e → q.normalizedEmail ≠ some e) ∧
  (∀ d n, p.normalizedDomain = some d → p.normalizedContactName = some n →
    ¬ (q.normalizedDomain = some d ∧ q.normalizedContactName = some n))

/-- A row collides with no row of the table. -/
def noCollision (p : ProspectRow) (table : List ProspectRow) : Prop :=
  ∀ r ∈ table, distinctIdentity p r

/-- The dedupe keys a row contributes are all inside a key set. -/
def rowKeysIn (p : ProspectRow) (ks : List JsStr) : Prop :=
  (∀ e, p.normalizedEmail = some e → emailKeyOf e ∈ ks) ∧
  (∀ d n, p.normalizedDomain = some d → p.normalizedContactName = some n →
    dnKeyOf d n ∈ ks)

/-- The dedupe keys a row contributes all avoid a key set. -/
def rowKeysNotIn (p : ProspectRow) (ks : List JsStr) : Prop :=
  (∀ e, p.normalizedEmail = some e → emailKeyOf e ∉ ks) ∧
  (∀ d n, p.normalizedDomain = some d → p.normalizedContactName = some n →
    dnKeyOf d n ∉ ks)

/-- Existing non-suppressed row with normalized email a@b.com. -/
def rowC2 : ProspectRow :=
  { id := "p1", email := .vstr (strToCodes "a@b.com"),
    normalizedEmail := some (strToCodes "a@b.com") }

/-- Existing suppressed row with the same normalized email. -/
def rowC2s : ProspectRow :=
  { id := "p2", normalizedEmail := some (strToCodes "a@b.com"),
    suppressedAt := some "2025-02-03" }

/-- Single-create request with mixed case and padding in the email. -/
def bodyC2 : ProspectInput := { email := .vstr (strToCodes "A@B.com ") }

/-- Existing row whose normalized email differs from the candidate but
whose (domain, contact name) pair collides with it. -/
def rowC1 : ProspectRow :=
  { id := "p1", normalizedEmail := some (strToCodes "old@acme.com"),
    normalizedDomain := some (strToCodes "acme.com"),
    normalizedContactName := some (strToCodes "jane doe") }

/-- Candidate with a fresh unique email and a colliding pair. -/
def bodyC1 : ProspectInput :=
  { companyName := .vstr (strToCodes "Acme"),
    contactName := .vstr (strToCodes "Jane Doe"),
    email := .vstr (strToCodes "new@other.com"),
    website := .vstr (strToCodes "acme.com") }

/-- A well-formed bulk row that is admitted and inserted. -/
def rawC3 : ProspectInput := { email := .vstr (strToCodes "x@y.com") }

/-- Existing suppressed row with domain acme.com and name jane doe. -/
def rowC5 : ProspectRow :=
  { id := "p9", normalizedDomain := some (strToCodes "acme.com"),
    normalizedContactName := some (strToCodes "jane doe"),
    suppressedAt := some "2025-01-01" }

/-- Bulk row whose website and contact name normalize onto the
suppressed identity. -/
def rawC5 : ProspectInput :=
  { contactName := .vstr (strToCodes "Jane   Doe"),
    website := .vstr (strToCodes "https://www.ACME.com") }

/-- Bulk row with empty company name, contact name and email. -/
def rawC6empty : ProspectInput :=
  { companyName := .vstr [], contactName := .vstr [], email := .vstr [] }

/-- Bulk row that is admitted. -/
def rawC6ok : ProspectInput := { email := .vstr (strToCodes "ok@ok.com") }

/-- Archived row used to exercise the archived-only listing. -/
def rowC9 : ProspectRow := { id := "p7", archivedAt := some "2025-03-04" }

/-- Query with the archived flag set and no other parameter. -/
def qC9 : ListQuery := { archived := some (strToCodes "1") }

/-- State with one non-archived prospect and two notes, one owned. -/
def stC8 : DbState :=
  { prospects := [{ id := "p1" }],
    notes := [{ id := "n1", prospectId := "p1" }, { id := "n2", prospectId := "p2" }] }

/-- The same state after archiving the prospect. -/
def stC8a : DbState :=
  { prospects := [{ id := "p1", archivedAt := some "t1" }],
    notes := [{ id := "n1", prospectId := "p1" }, { id := "n2", prospectId := "p2" }] }

/-- Bulk row used twice in one batch to exercise in-batch dedupe. -/
def rawC4 : ProspectInput := { email := .vstr (strToCodes "dup@x.com") }

/-- Existing row for the witness of the batch invariant. -/
def rowC4x : ProspectRow := { id := "px", normalizedEmail := some (strToCodes "x@x.com") }

/-- Bulk row admitted next to the existing row in the witness. -/
def rawC4y : ProspectInput := { email := .vstr (strToCodes "y@y.com") }

/-!
Shared lemmas about the string normalizers.
-/

theorem jsLowerChar_idem (c : Nat) : jsLowerChar (jsLowerChar c) = jsLowerChar c := by
  unfold jsLowerChar
  split
  · split <;> omega
  · rfl

theorem jsIsWs_jsLowerChar (c : Nat) : jsIsWs (jsLowerChar c) = jsIsWs c := by
  unfold jsLowerChar
  split
  · simp only [jsIsWs, decide_eq_decide]
    omega
  · rfl

theorem headIsWs_jsToLower (s : JsStr) : headIsWs (jsToLower s) = headIsWs s := by
  cases s with
  | nil => rfl
  | cons c rest => simp [jsToLower, headIsWs, jsIsWs_jsLowerChar]

theorem lastIsWs_jsToLower (s : JsStr) : lastIsWs (jsToLower s) = lastIsWs s := by
  unfold lastIsWs
  rw [jsToLower, ← List.map_reverse, ← jsToLower, headIsWs_jsToLower]

theorem headIsWs_dropWhile (l : JsStr) : headIsWs (l.dropWhile jsIsWs) = false := by
  induction l with
  | nil => rfl
  | cons c rest ih =>
    rw [List.dropWhile_cons]
    split
    · exact ih
    · next h => simpa [headIsWs] using h

theorem headIsWs_prefix {l m : JsStr} (h : l <+: m) (hne : l ≠ []) :
    headIsWs m = headIsWs l := by
  obtain ⟨t, rfl⟩ := h
  cases l with
  | nil => exact absurd rfl hne
  | cons c cs => rfl

theorem headIsWs_jsTrim (s : JsStr) : headIsWs (jsTrim s) = false := by
  unfold jsTrim
  by_cases hnil : ((s.dropWhile jsIsWs).reverse.dropWhile jsIsWs).reverse = []
  · rw [hnil]; rfl
  · have hpre : ((s.dropWhile jsIsWs).reverse.dropWhile jsIsWs).reverse <+: s.dropWhile jsIsWs := by
      have hsuf : (s.dropWhile jsIsWs).reverse.dropWhile jsIsWs <:+ (s.dropWhile jsIsWs).reverse :=
        List.dropWhile_suffix _
      have := List.reverse_prefix.mpr hsuf
      rwa [List.reverse_reverse] at this
    rw [← headIsWs_prefix hpre hnil]
    exact headIsWs_dropWhile s

theorem lastIsWs_jsTrim (s : JsStr) : lastIsWs (jsTrim s) = false := by
  unfold lastIsWs jsTrim
  rw [List.reverse_reverse]
  exact headIsWs_dropWhile _

theorem dropWhile_of_headIsWs_false {t : JsStr} (h : headIsWs t = false) :
    t.dropWhile jsIsWs = t := by
  cases t with
  | nil => rfl
  | cons c cs =>
    rw [List.dropWhile_cons]
    simp only [headIsWs] at h
    simp [h]

theorem jsTrim_eq_self {t : JsStr} (h1 : headIsWs t = false) (h2 : lastIsWs t = false) :
    jsTrim t = t := by
  unfold jsTrim
  rw [dropWhile_of_headIsWs_false h1, dropWhile_of_headIsWs_false h2, List.reverse_reverse]

theorem jsToLower_idem (s : JsStr) : jsToLower (jsToLower s) = jsToLower s := by
  unfold jsToLower
  rw [List.map_map]
  exact List.map_congr_left (fun c _ => jsLowerChar_idem c)

theorem normalizeEmail_idem (x : JsVal) :
    normalizeEmail (optToVal (normalizeEmail x)) = normalizeEmail x := by
  cases x with
  | vnull => rfl
  | vother => rfl
  | vstr s =>
    by_cases h : jsToLower (jsTrim s) = []
    · simp [normalizeEmail, h, optToVal]
    · simp only [normalizeEmail, h, if_false, optToVal]
      have htrim : jsTrim (jsToLower (jsTrim s)) = jsToLower (jsTrim s) := by
        apply jsTrim_eq_self
        · rw [headIsWs_jsToLower]; exact headIsWs_jsTrim s
        · rw [lastIsWs_jsToLower]; exact lastIsWs_jsTrim s
      rw [htrim, jsToLower_idem, if_neg h]

theorem collapseWs_ne_nil {l : JsStr} (h : l ≠ []) : collapseWs l ≠ [] := by
  induction l with
  | nil => exact absurd rfl h
  | cons c rest ih =>
    rw [collapseWs]
    split
    · split
      · next hhead =>
        have hrne : rest ≠ [] := by
          cases rest with
          | nil => simp [headIsWs] at hhead
          | cons a b => simp
        exact ih hrne
      · simp
    · simp

theorem headIsWs_collapseWs (l : JsStr) : headIsWs (collapseWs l) = headIsWs l := by
  induction l with
  | nil => rfl
  | cons c rest ih =>
    rw [collapseWs]
    split
    · next hws =>
      split
      · next hhead => rw [ih, hhead, headIsWs, hws]
      · next hhead =>
        show jsIsWs 32 = jsIsWs c
        rw [hws]
        decide
    · rfl

theorem mem_collapseWs {c : Nat} {l : JsStr} (h : c ∈ collapseWs l) : c = 32 ∨ c ∈ l := by
  induction l with
  | nil => simp [collapseWs] at h
  | cons a rest ih =>
    rw [collapseWs] at h
    by_cases hws : jsIsWs a = true
    · rw [if_pos hws] at h
      by_cases hhead : headIsWs rest = true
      · rw [if_pos hhead] at h
        rcases ih h with h32 | hmem
        · exact Or.inl h32
        · exact Or.inr (List.mem_cons_of_mem a hmem)
      · rw [if_neg hhead] at h
        rcases List.mem_cons.mp h with h32 | hmem
        · exact Or.inl h32
        · rcases ih hmem with h32 | hmem2
          · exact Or.inl h32
          · exact Or.inr (List.mem_cons_of_mem a hmem2)
    · rw [if_neg hws] at h
      rcases List.mem_cons.mp h with heq | hmem
      · exact Or.inr (heq ▸ List.mem_cons_self a rest)
      · rcases ih hmem with h32 | hmem2
        · exact Or.inl h32
        · exact Or.inr (List.mem_cons_of_mem a hmem2)

theorem isCollapsed_collapseWs (l : JsStr) : isCollapsed (collapseWs l) = true := by
  induction l with
  | nil => rfl
  | cons c rest ih =>
    rw [collapseWs]
    split
    · next hws =>
      split
      · next hhead => exact ih
      · next hhead =>
        rw [isCollapsed, ih, headIsWs_collapseWs, Bool.eq_false_iff.mpr hhead]
        decide
    · next hws =>
      rw [isCollapsed, ih, Bool.eq_false_iff.mpr hws]
      rfl

theorem collapseWs_of_isCollapsed {l : JsStr} (h : isCollapsed l = true) : collapseWs l = l := by
  induction l with
  | nil => rfl
  | cons c rest ih =>
    rw [isCollapsed, Bool.and_eq_true] at h
    obtain ⟨hc, hrest⟩ := h
    rw [collapseWs]
    by_cases hws : jsIsWs c = true
    · rw [if_pos hws]
      rw [Bool.or_eq_true, Bool.and_eq_true] at hc
      rcases hc with hneg | ⟨h32, hhead⟩
      · rw [hws] at hneg; simp at hneg
      · have hc32 : c = 32 := by simpa using h32
        have hh : headIsWs rest = false := by simpa using hhead
        rw [if_neg (by rw [hh]; simp), ih hrest, hc32]
    · rw [if_neg hws, ih hrest]

theorem headIsWs_append_of_ne_nil {a : JsStr} (b : JsStr) (h : a ≠ []) :
    headIsWs (a ++ b) = headIsWs a := by
  cases a with
  | nil => exact absurd rfl h
  | cons c cs => rfl

theorem lastIsWs_cons_of_ne_nil (c : Nat) {rest : JsStr} (h : rest ≠ []) :
    lastIsWs (c :: rest) = lastIsWs rest := by
  unfold lastIsWs
  rw [List.reverse_cons]
  exact headIsWs_append_of_ne_nil [c] (by simpa using h)

theorem lastIsWs_singleton (c : Nat) : lastIsWs [c] = jsIsWs c := rfl

theorem lastIsWs_collapseWs {l : JsStr} (h : lastIsWs l = false) :
    lastIsWs (collapseWs l) = false := by
  induction l with
  | nil => rfl
  | cons c rest ih =>
    rw [collapseWs]
    by_cases hrnil : rest = []
    · subst hrnil
      rw [lastIsWs_singleton] at h
      rw [if_neg (by rw [h]; simp)]
      exact h
    · have hlast : lastIsWs rest = false := by
        rw [lastIsWs_cons_of_ne_nil c hrnil] at h
        exact h
      have hcne : collapseWs rest ≠ [] := collapseWs_ne_nil hrnil
      by_cases hws : jsIsWs c = true
      · rw [if_pos hws]
        by_cases hhead : headIsWs rest = true
        · rw [if_pos hhead]
          exact ih hlast
        · rw [if_neg hhead]
          rw [lastIsWs_cons_of_ne_nil 32 hcne]
          exact ih hlast
      · rw [if_neg hws]
        rw [lastIsWs_cons_of_ne_nil c hcne]
        exact ih hlast

theorem map_id_of_fixed {f : Nat → Nat} {l : JsStr} (h : ∀ c ∈ l, f c = c) :
    l.map f = l := by
  induction l with
  | nil => rfl
  | cons c rest ih =>
    rw [List.map_cons, h c (List.mem_cons_self c rest),
      ih (fun d hd => h d (List.mem_cons_of_mem c hd))]

theorem jsToLower_collapseWs_fixed (w : JsStr) :
    jsToLower (collapseWs (jsToLower w)) = collapseWs (jsToLower w) := by
  apply map_id_of_fixed
  intro c hc
  rcases mem_collapseWs hc with h32 | hmem
  · subst h32; rfl
  · rcases List.mem_map.mp hmem with ⟨d, _, rfl⟩
    exact jsLowerChar_idem d

theorem normalizeName_idem (x : JsVal) :
    normalizeName (optToVal (normalizeName x)) = normalizeName x := by
  cases x with
  | vnull => rfl
  | vother => rfl
  | vstr s =>
    by_cases h : collapseWs (jsToLower (jsTrim s)) = []
    · simp [normalizeName, h, optToVal]
    · simp only [normalizeName, h, if_false, optToVal]
      set r := collapseWs (jsToLower (jsTrim s)) with hr
      have htrim : jsTrim r = r := by
        apply jsTrim_eq_self
        · rw [hr, headIsWs_collapseWs, headIsWs_jsToLower]
          exact headIsWs_jsTrim s
        · rw [hr]
          apply lastIsWs_collapseWs
          rw [lastIsWs_jsToLower]
          exact lastIsWs_jsTrim s
      have hlower : jsToLower r = r := by
        rw [hr]
        exact jsToLower_collapseWs_fixed (jsTrim s)
      have hcol : collapseWs r = r :=
        collapseWs_of_isCollapsed (hr ▸ isCollapsed_collapseWs (jsToLower (jsTrim s)))
      rw [htrim, hlower, hcol, if_neg h]

/-- C7: for every input, applying normalizeEmail or normalizeName to
its own result gives the same value back, and both functions are total,
returning null on empty-string and non-string input. -/
theorem normalizers_idempotent_and_total :
    (∀ x : JsVal, normalizeEmail (optToVal (normalizeEmail x)) = normalizeEmail x) ∧
    (∀ x : JsVal, normalizeName (optToVal (normalizeName x)) = normalizeName x) ∧
    normalizeEmail (.vstr []) = none ∧ normalizeEmail .vnull = none ∧
    normalizeEmail .vother = none ∧
    normalizeName (.vstr []) = none ∧ normalizeName .vnull = none ∧
    normalizeName .vother = none :=
  ⟨normalizeEmail_idem, normalizeName_idem, by decide, rfl, rfl, by decide, rfl, rfl⟩

theorem checkDuplicateProspect_some_of_matches
    {ne nd nc : Option JsStr} {table : List ProspectRow}
    (h : identityMatches ne nd nc table) :
    ∃ r ∈ table, checkDuplicateProspect ne nd nc table = some r := by
  cases ne with
  | some e =>
    cases hfind : table.find? (fun r => r.normalizedEmail == some e) with
    | some row =>
      exact ⟨row, List.mem_of_find?_eq_some hfind, by simp [checkDuplicateProspect, hfind]⟩
    | none =>
      rcases h with ⟨e2, he2, r, hr, hre⟩ | ⟨d, n, hd, hn, r, hr, hrd, hrn⟩
      · rw [Option.some.injEq] at he2
        have hsome : (table.find? (fun r => r.normalizedEmail == some e)).isSome := by
          rw [List.find?_isSome]
          exact ⟨r, hr, by simp [hre, he2]⟩
        rw [hfind] at hsome
        simp at hsome
      · subst hd
        subst hn
        have hsome : (table.find? (fun r =>
            r.normalizedDomain == some d && r.normalizedContactName == some n)).isSome := by
          rw [List.find?_isSome]
          exact ⟨r, hr, by simp [hrd, hrn]⟩
        obtain ⟨row2, hrow2⟩ := Option.isSome_iff_exists.mp hsome
        exact ⟨row2, List.mem_of_find?_eq_some hrow2,
          by simp [checkDuplicateProspect, hfind, hrow2]⟩
  | none =>
    rcases h with ⟨e2, he2, _⟩ | ⟨d, n, hd, hn, r, hr, hrd, hrn⟩
    · exact absurd he2 (by simp)
    · subst hd
      subst hn
      have hsome : (table.find? (fun r =>
          r.normalizedDomain == some d && r.normalizedContactName == some n)).isSome := by
        rw [List.find?_isSome]
        exact ⟨r, hr, by simp [hrd, hrn]⟩
      obtain ⟨row2, hrow2⟩ := Option.isSome_iff_exists.mp hsome
      exact ⟨row2, List.mem_of_find?_eq_some hrow2,
        by simp [checkDuplicateProspect, hrow2]⟩

/-- C2: whenever the normalized identity key material of a
single-create request matches an existing row, suppressed or not, the
route answers 409 carrying the identifier of a pre-existing row and
the table is unchanged. -/
theorem singleCreate_conflicts_on_any_match (body : ProspectInput) (table : List ProspectRow)
    (newId now : String)
    (h : identityMatches (normalizeEmail body.email)
      (extractDomainFromWebsiteOrEmail body.website body.email)
      (normalizeName body.contactName) table) :
    ∃ r ∈ table, createProspect body table newId now = (.conflict r.id, table) ∧
      createStatus (CreateOutcome.conflict r.id) = 409 := by
  obtain ⟨r, hr, hchk⟩ := checkDuplicateProspect_some_of_matches h
  exact ⟨r, hr, by simp [createProspect, hchk], rfl⟩

theorem singleCreate_conflicts_on_any_match_witness :
    (∃ r ∈ [rowC2], createProspect bodyC2 [rowC2] "pros_new" "now1" = (.conflict r.id, [rowC2]) ∧
      createStatus (CreateOutcome.conflict r.id) = 409) ∧
    (∃ r ∈ [rowC2s], createProspect bodyC2 [rowC2s] "pros_new" "now1" = (.conflict r.id, [rowC2s]) ∧
      createStatus (CreateOutcome.conflict r.id) = 409) :=
  ⟨singleCreate_conflicts_on_any_match bodyC2 [rowC2] "pros_new" "now1"
      (Or.inl ⟨strToCodes "a@b.com", by decide, rowC2, by decide, by decide⟩),
   singleCreate_conflicts_on_any_match bodyC2 [rowC2s] "pros_new" "now1"
      (Or.inl ⟨strToCodes "a@b.com", by decide, rowC2s, by decide, by decide⟩)⟩

/-- C1, code evaluated at the failing input: the candidate has a
normalized email matched by no existing row, yet the single-create
path answers Conflict with the identifier of the pair-colliding row,
and the bulk path skips the same candidate, because both paths consult
the domain-plus-name key even when an email key is present. -/
theorem domainNameCollision_blocks_despite_unique_email :
    normalizeEmail bodyC1.email = some (strToCodes "new@other.com") ∧
    ([rowC1].all (fun r => !(r.normalizedEmail == some (strToCodes "new@other.com")))) = true ∧
    createProspect bodyC1 [rowC1] "pros_new" "now1" = (.conflict "p1", [rowC1]) ∧
    bulkImport [rowC1] (strToCodes "src1") (fun _ => "pros_b0") "now1"
      (some [some bodyC1]) = (.badRequestNoValid, [rowC1]) := by
  decide

/-- C3, code evaluated at the failing input: a successful bulk import
answers 201, but its response carries no header at all, in particular
none of the required import-count headers. -/
theorem bulk_response_reports_no_count_headers :
    bulkStatus (bulkImport [] (strToCodes "src1") (fun _ => "pros_b0") "now1"
      (some [some rawC3])).1 = 201 ∧
    bulkResponseHeaders (bulkImport [] (strToCodes "src1") (fun _ => "pros_b0") "now1"
      (some [some rawC3])).1 = [] ∧
    ¬ reportsImportCounts (bulkResponseHeaders (bulkImport [] (strToCodes "src1")
      (fun _ => "pros_b0") "now1" (some [some rawC3])).1) := by
  refine ⟨by decide, rfl, ?_⟩
  intro h
  obtain ⟨v, hv⟩ := h "X-LeadGen-Import-Received" (by simp [importCountHeaderNames])
  exact absurd hv (List.not_mem_nil _)

/-- C5: against the suppressed acme.com and jane doe row, the bulk row
with website https://www.ACME.com and contact name Jane (triple space)
Doe hits the suppressed key after www-stripping, lowercasing and
whitespace collapsing: the suppressedHit condition fires, the row is
skipped, and nothing is inserted. -/
theorem bulk_skips_suppressed_normalized_match :
    bulkSuppressedHit (buildSuppressedKeys [rowC5]) rawC5 = true ∧
    bulkValidProspects [rowC5] (strToCodes "src1") (fun _ => "pros_b0") "now1"
      [some rawC5] = [] ∧
    bulkImport [rowC5] (strToCodes "src1") (fun _ => "pros_b0") "now1"
      (some [some rawC5]) = (.badRequestNoValid, [rowC5]) := by
  decide

/-- C6: when a non-empty prospects array admits zero rows, the bulk
route fails with 400 performing no insert; otherwise all admitted rows
are inserted together in one batch appended to the table. -/
theorem bulk_zero_admitted_bad_request (table : List ProspectRow) (srcId : JsStr)
    (idGen : Nat → String) (now : String) (items : List (Option ProspectInput))
    (hne : items ≠ []) :
    (bulkValidProspects table srcId idGen now items = [] →
      bulkImport table srcId idGen now (some items) = (.badRequestNoValid, table) ∧
      bulkStatus BulkResult.badRequestNoValid = 400) ∧
    (bulkValidProspects table srcId idGen now items ≠ [] →
      bulkImport table srcId idGen now (some items) =
        (.createdRows (bulkValidProspects table srcId idGen now items),
          table ++ bulkValidProspects table srcId idGen now items) ∧
      bulkStatus (BulkResult.createdRows (bulkValidProspects table srcId idGen now items)) = 201) := by
  have hlen : ¬ items.length = 0 := by simpa using hne
  constructor
  · intro hv
    exact ⟨by simp [bulkImport, hlen, hv], rfl⟩
  · intro hv
    have hvlen : ¬ (bulkValidProspects table srcId idGen now items).length = 0 := by
      simpa using hv
    exact ⟨by simp [bulkImport, hlen, hvlen], rfl⟩

theorem bulk_zero_admitted_bad_request_witness :
    (bulkImport [] (strToCodes "s1") (fun _ => "pros_b0") "t1"
        (some [some rawC6empty]) = (.badRequestNoValid, []) ∧
      bulkStatus BulkResult.badRequestNoValid = 400) ∧
    (bulkImport [] (strToCodes "s1") (fun _ => "pros_b0") "t1"
        (some [some rawC6ok]) =
        (.createdRows (bulkValidProspects [] (strToCodes "s1") (fun _ => "pros_b0") "t1"
            [some rawC6ok]),
          [] ++ bulkValidProspects [] (strToCodes "s1") (fun _ => "pros_b0") "t1"
            [some rawC6ok]) ∧
      bulkStatus (BulkResult.createdRows (bulkValidProspects [] (strToCodes "s1")
        (fun _ => "pros_b0") "t1" [some rawC6ok])) = 201) :=
  ⟨(bulk_zero_admitted_bad_request [] (strToCodes "s1") (fun _ => "pros_b0") "t1"
      [some rawC6empty] (by decide)).1 (by decide),
   (bulk_zero_admitted_bad_request [] (strToCodes "s1") (fun _ => "pros_b0") "t1"
      [some rawC6ok] (by decide)).2 (by decide)⟩

/-- C10: a single-create with no usable identity material is admitted
against every table state: the duplicate check can form no key, a row
with null identity columns is appended, and 201 is returned; because
this holds for every table, each repetition of the same empty request
inserts another row. -/
theorem singleCreate_accepts_empty_identity (table : List ProspectRow) (newId now : String) :
    ∃ row, createProspect {} table newId now = (.created row, table ++ [row]) ∧
      row.normalizedEmail = none ∧ row.normalizedDomain = none ∧
      row.normalizedContactName = none ∧
      createStatus (CreateOutcome.created row) = 201 :=
  ⟨_, rfl, rfl, rfl, rfl, rfl⟩

/-- C9: a row returned by the prospect list query is archived exactly
when the archived flag is the string 1 and suppressed exactly when the
suppressed flag is the string 1; with no flags no archived and no
suppressed row is ever returned, and each flag governs only its own
dimension. -/
theorem listProspects_respects_flags (q : ListQuery) (table : List ProspectRow)
    (r : ProspectRow) (hr : r ∈ listProspects q table) :
    (r.archivedAt ≠ none ↔ includeArchived q = true) ∧
    (r.suppressedAt ≠ none ↔ includeSuppressed q = true) := by
  rw [listProspects, List.mem_filter] at hr
  obtain ⟨-, hq⟩ := hr
  rw [prospectMatchesQuery] at hq
  simp only [Bool.and_eq_true] at hq
  obtain ⟨⟨⟨⟨⟨ha, hs⟩, -⟩, -⟩, -⟩, -⟩ := hq
  constructor
  · cases harch : includeArchived q
    · rw [harch] at ha
      simp only [Bool.false_eq_true, if_false] at ha
      rw [Option.isNone_iff_eq_none] at ha
      simp [ha]
    · rw [harch] at ha
      simp only [if_true] at ha
      rw [Option.isSome_iff_ne_none] at ha
      simp [ha]
  · cases hsup : includeSuppressed q
    · rw [hsup] at hs
      simp only [Bool.false_eq_true, if_false] at hs
      rw [Option.isNone_iff_eq_none] at hs
      simp [hs]
    · rw [hsup] at hs
      simp only [if_true] at hs
      rw [Option.isSome_iff_ne_none] at hs
      simp [hs]

theorem listProspects_respects_flags_witness :
    (rowC9.archivedAt ≠ none ↔ includeArchived qC9 = true) ∧
    (rowC9.suppressedAt ≠ none ↔ includeSuppressed qC9 = true) :=
  listProspects_respects_flags qC9 [rowC9] rowC9 (by decide)

theorem getProspectById_archive_map (id now : String) :
    ∀ (l : List ProspectRow) (p : ProspectRow), getProspectById l id = some p →
      getProspectById
        (l.map (fun r => if r.id == id then { r with archivedAt := some now } else r)) id
        = some { p with archivedAt := some now } := by
  intro l
  induction l with
  | nil => intro p hp; simp [getProspectById] at hp
  | cons a rest ih =>
    intro p hp
    by_cases hid : (a.id == id) = true
    · rw [getProspectById, List.find?_cons_of_pos rest hid, Option.some.injEq] at hp
      subst hp
      rw [List.map_cons, if_pos hid, getProspectById]
      exact List.find?_cons_of_pos _ hid
    · rw [getProspectById, List.find?_cons_of_neg rest hid] at hp
      rw [List.map_cons, if_neg hid, getProspectById]
      have hstep : List.find? (fun r => r.id == id)
          (a :: rest.map (fun r => if r.id == id then { r with archivedAt := some now } else r))
          = List.find? (fun r => r.id == id)
            (rest.map (fun r => if r.id == id then { r with archivedAt := some now } else r)) :=
        List.find?_cons_of_neg _ hid
      rw [hstep]
      have hres := ih p hp
      rw [getProspectById] at hres
      exact hres

/-- C8: deleting a prospect succeeds only when it is archived: on a
found row with null archivedAt the route answers 400 and changes
nothing, while after an archive the delete answers 200, hard-removes
the prospect row and removes every note owned by it. -/
theorem delete_only_archived (st : DbState) (id now : String) (p : ProspectRow)
    (hp : getProspectById st.prospects id = some p) :
    (p.archivedAt = none → deleteProspect st id = (.notArchived, st) ∧
      deleteStatus DeleteResult.notArchived = 400) ∧
    (∀ st2, archiveProspect st id now = some st2 →
      (deleteProspect st2 id).1 = .deleted id ∧
      deleteStatus (DeleteResult.deleted id) = 200 ∧
      (deleteProspect st2 id).2.prospects = st2.prospects.filter (fun r => !(r.id == id)) ∧
      (deleteProspect st2 id).2.notes = st2.notes.filter (fun nr => !(nr.prospectId == id)) ∧
      (∀ r ∈ (deleteProspect st2 id).2.prospects, r.id ≠ id) ∧
      (∀ nr ∈ (deleteProspect st2 id).2.notes, nr.prospectId ≠ id)) := by
  constructor
  · intro harch
    exact ⟨by simp [deleteProspect, hp, harch], rfl⟩
  · intro st2 h2
    rw [archiveProspect] at h2
    split at h2
    · rw [Option.some.injEq] at h2
      subst h2
      have hfind := getProspectById_archive_map id now st.prospects p hp
      simp only [beq_iff_eq] at hfind
      refine ⟨?_, rfl, ?_, ?_, ?_, ?_⟩
      · simp [deleteProspect, hfind]
      · simp [deleteProspect, hfind]
      · simp [deleteProspect, hfind]
      · intro r hrm
        simp [deleteProspect, hfind, List.mem_filter] at hrm
        exact hrm.2
      · intro nr hnm
        simp [deleteProspect, hfind, List.mem_filter] at hnm
        exact hnm.2
    · exact absurd h2 (by simp)

theorem delete_only_archived_witness :
    (deleteProspect stC8 "p1" = (.notArchived, stC8) ∧
      deleteStatus DeleteResult.notArchived = 400) ∧
    ((deleteProspect stC8a "p1").1 = .deleted "p1" ∧
      deleteStatus (DeleteResult.deleted "p1") = 200 ∧
      (deleteProspect stC8a "p1").2.prospects = stC8a.prospects.filter (fun r => !(r.id == "p1")) ∧
      (deleteProspect stC8a "p1").2.notes = stC8a.notes.filter (fun nr => !(nr.prospectId == "p1")) ∧
      (∀ r ∈ (deleteProspect stC8a "p1").2.prospects, r.id ≠ "p1") ∧
      (∀ nr ∈ (deleteProspect stC8a "p1").2.notes, nr.prospectId ≠ "p1")) :=
  ⟨(delete_only_archived stC8 "p1" "t1" { id := "p1" } (by decide)).1 rfl,
   (delete_only_archived stC8 "p1" "t1" { id := "p1" } (by decide)).2 stC8a (by decide)⟩

theorem option_any_contains_false {o : Option JsStr} {ks : List JsStr}
    (h : o.any (fun k => ks.contains k) = false) :
    ∀ k, o = some k → k ∉ ks := by
  intro k hk hmem
  rw [hk] at h
  have h2 : List.elem k ks = false := h
  rw [List.elem_iff.mpr hmem] at h2
  cases h2

theorem mem_buildExistingKeys_of_email {table : List ProspectRow} {r : ProspectRow} {e : JsStr}
    (hr : r ∈ table) (he : r.normalizedEmail = some e) :
    emailKeyOf e ∈ buildExistingKeys table := by
  induction table with
  | nil => cases hr
  | cons a rest ih =>
    rw [buildExistingKeys]
    rcases List.mem_cons.mp hr with heq | hmem
    · subst heq
      rw [he]
      simp
    · exact List.mem_append_right _ (ih hmem)

theorem mem_buildExistingKeys_of_dn {table : List ProspectRow} {r : ProspectRow} {d n : JsStr}
    (hr : r ∈ table) (hd : r.normalizedDomain = some d) (hn : r.normalizedContactName = some n) :
    dnKeyOf d n ∈ buildExistingKeys table := by
  induction table with
  | nil => cases hr
  | cons a rest ih =>
    rw [buildExistingKeys]
    rcases List.mem_cons.mp hr with heq | hmem
    · subst heq
      rw [hd, hn]
      simp
    · exact List.mem_append_right _ (ih hmem)

theorem bulkKeyEmail_of_row {srcId : JsStr} {nid now : String} {raw : ProspectInput} {e : JsStr}
    (h : (bulkAdmitRow srcId nid now raw).normalizedEmail = some e) :
    bulkKeyEmail raw = some (emailKeyOf e) := by
  have h2 : normalizeEmail raw.email = some e := h
  rw [bulkKeyEmail, h2]
  rfl

theorem bulkKeyDomain_of_row {srcId : JsStr} {nid now : String} {raw : ProspectInput} {d n : JsStr}
    (hd : (bulkAdmitRow srcId nid now raw).normalizedDomain = some d)
    (hn : (bulkAdmitRow srcId nid now raw).normalizedContactName = some n) :
    bulkKeyDomain raw = some (dnKeyOf d n) := by
  have hd2 : extractDomainFromWebsiteOrEmail raw.website raw.email = some d := hd
  have hn2 : normalizeName raw.contactName = some n := hn
  rw [bulkKeyDomain, hd2, hn2]

theorem bulkLoop_invariant (exKeys supKeys : List JsStr) (srcId : JsStr)
    (idGen : Nat → String) (now : String) :
    ∀ (items : List (Option ProspectInput)) (seen : List JsStr) (acc : List ProspectRow),
      (∀ p ∈ acc, rowKeysIn p seen) →
      acc.Pairwise distinctIdentity →
      (∀ p ∈ acc, rowKeysNotIn p exKeys) →
      (bulkLoop exKeys supKeys srcId idGen now items seen acc).Pairwise distinctIdentity ∧
      ∀ p ∈ bulkLoop exKeys supKeys srcId idGen now items seen acc, rowKeysNotIn p exKeys := by
  intro items
  induction items with
  | nil =>
    intro seen acc h1 h2 h3
    rw [bulkLoop]
    exact ⟨h2, h3⟩
  | cons item rest ih =>
    intro seen acc h1 h2 h3
    cases item with
    | none =>
      rw [bulkLoop]
      exact ih seen acc h1 h2 h3
    | some raw =>
      rw [bulkLoop]
      by_cases hid : bulkHasIdentifier raw = false
      · rw [if_pos hid]
        exact ih seen acc h1 h2 h3
      · rw [if_neg hid]
        by_cases hdup : (bulkDuplicateKey exKeys seen raw || bulkSuppressedHit supKeys raw) = true
        · rw [if_pos hdup]
          exact ih seen acc h1 h2 h3
        · rw [if_neg hdup]
          have hdk : bulkDuplicateKey exKeys seen raw = false := by
            cases hb : bulkDuplicateKey exKeys seen raw
            · rfl
            · exact absurd (by rw [hb]; rfl) hdup
          rw [bulkDuplicateKey] at hdk
          simp only [Bool.or_eq_false_iff] at hdk
          obtain ⟨⟨⟨hE_ex, hD_ex⟩, hE_seen⟩, hD_seen⟩ := hdk
          have hEex := option_any_contains_false hE_ex
          have hDex := option_any_contains_false hD_ex
          have hEseen := option_any_contains_false hE_seen
          have hDseen := option_any_contains_false hD_seen
          apply ih
          · intro p hp
            rcases List.mem_append.mp hp with hacc | hnew
            · obtain ⟨hk1, hk2⟩ := h1 p hacc
              exact ⟨fun e he => List.mem_append_left _ (List.mem_append_left _ (hk1 e he)),
                fun d n hd hn => List.mem_append_left _ (List.mem_append_left _ (hk2 d n hd hn))⟩
            · have hpe : p = bulkAdmitRow srcId (idGen acc.length) now raw :=
                List.mem_singleton.mp hnew
              subst hpe
              constructor
              · intro e he
                apply List.mem_append_left
                apply List.mem_append_right
                rw [bulkKeyEmail_of_row he]
                simp
              · intro d n hd hn
                apply List.mem_append_right
                rw [bulkKeyDomain_of_row hd hn]
                simp
          · rw [List.pairwise_append]
            refine ⟨h2, by simp, ?_⟩
            intro a ha b hb
            have hbe : b = bulkAdmitRow srcId (idGen acc.length) now raw :=
              List.mem_singleton.mp hb
            subst hbe
            obtain ⟨hk1, hk2⟩ := h1 a ha
            constructor
            · intro e hae hbe2
              exact hEseen _ (bulkKeyEmail_of_row hbe2) (hk1 e hae)
            · intro d n had han hb2
              exact hDseen _ (bulkKeyDomain_of_row hb2.1 hb2.2) (hk2 d n had han)
          · intro p hp
            rcases List.mem_append.mp hp with hacc | hnew
            · exact h3 p hacc
            · have hpe : p = bulkAdmitRow srcId (idGen acc.length) now raw :=
                List.mem_singleton.mp hnew
              subst hpe
              constructor
              · intro e he
                exact hEex _ (bulkKeyEmail_of_row he)
              · intro d n hd hn
                exact hDex _ (bulkKeyDomain_of_row hd hn)

/-- C4: the in-batch seen set is consulted with the same key shapes as
the existing-row snapshot: the admitted rows of any bulk batch are
pairwise distinct on the email key and on the domain-name key, and no
admitted row collides with any pre-existing row; concretely, a batch
repeating one email against an empty table admits exactly the first
occurrence and skips the second. -/
theorem bulk_batch_pairwise_unique :
    (∀ (table : List ProspectRow) (srcId : JsStr) (idGen : Nat → String) (now : String)
        (items : List (Option ProspectInput)),
      (bulkValidProspects table srcId idGen now items).Pairwise distinctIdentity ∧
      ∀ p ∈ bulkValidProspects table srcId idGen now items, noCollision p table) ∧
    bulkValidProspects [] (strToCodes "s1") (fun k => "pros_" ++ toString k) "t1"
      [some rawC4, some rawC4] =
      [bulkAdmitRow (strToCodes "s1") "pros_0" "t1" rawC4] := by
  constructor
  · intro table srcId idGen now items
    have h := bulkLoop_invariant (buildExistingKeys table) (buildSuppressedKeys table)
      srcId idGen now items [] [] (by simp) (by simp) (by simp)
    rw [bulkValidProspects]
    refine ⟨h.1, ?_⟩
    intro p hp r hr
    obtain ⟨hn1, hn2⟩ := h.2 p hp
    constructor
    · intro e hpe hre
      exact hn1 e hpe (mem_buildExistingKeys_of_email hr hre)
    · intro d n hpd hpn hrdn
      exact hn2 d n hpd hpn (mem_buildExistingKeys_of_dn hr hrdn.1 hrdn.2)
  · decide

theorem bulk_batch_pairwise_unique_witness :
    rowC4x.normalizedEmail ≠ some (strToCodes "y@y.com") :=
  ((bulk_batch_pairwise_unique.1 [rowC4x] (strToCodes "s1") (fun _ => "pb0") "t1"
      [some rawC4y]).2 (bulkAdmitRow (strToCodes "s1") "pb0" "t1" rawC4y) (by decide)
    rowC4x (by decide)).1 (strToCodes "y@y.com") (by decide)
